import Mathlib

/-!
Verification development for the rbfx editor asset pipeline (AssetManager),
the ListView selection logic and the Cursor shape logic.

Resource paths are modelled as lists of path components; file times as
natural numbers.  The AssetManager implementation file is not part of the
sample (only `AssetManager.h` is), so its operations are modelled from the
specification, as indicated by each doc comment.  ListView and Cursor are
embedded from their source files.
-/

namespace Rbfx

/-- File modification time (`FileTime`). -/
abbrev FileTime := Nat

/-- Resource path, as a list of path components relative to the resource root. -/
abbrev ResPath := List String

/-- Mirrors `AssetManager::AssetPipelineDesc` (AssetManager.h): resource name,
modification time, transformer list and dependency edges.  Transformer
instances are identified by their type name. -/
structure AssetPipelineDesc where
  resourceName : ResPath
  modificationTime : FileTime
  transformers : List String
  dependencies : List (ResPath × ResPath)
  deriving DecidableEq

/-- Mirrors `AssetManager::AssetDesc` (AssetManager.h): resource name, outputs
of the last processing, set of applied transformer type names, modification
time of the source at last processing, and the cache-invalid flag. -/
structure AssetDesc where
  resourceName : ResPath
  outputs : List ResPath
  transformers : List String
  modificationTime : FileTime
  cacheInvalid : Bool
  deriving DecidableEq

/-- Modelled from the spec: `UpdateTransformHierarchy` / `transformerHierarchy_`
resolution.  The effective transformers of an asset are the transformer lists
of every pipeline descriptor whose `resourcePath` is an ancestor directory of
(or equal to) the asset's path, concatenated in root-to-leaf order and, within
one depth, in descriptor-declaration order. -/
def GetApplicableTransformers (pipelines : List AssetPipelineDesc) (assetPath : ResPath) :
    List String :=
  (List.range (assetPath.length + 1)).flatMap fun i =>
    (pipelines.filter fun d => d.resourceName == assetPath.take i).flatMap fun d =>
      d.transformers

/-- Boolean equality of two lists viewed as sets of strings. -/
def sameStringSet (a b : List String) : Bool :=
  (a.all fun t => b.contains t) && (b.all fun t => a.contains t)

/-- Modelled from the spec: `AssetManager::IsAssetUpToDate`.  An asset is up to
date iff its cache-invalid flag is clear, the live source modification time
equals the recorded one, and the set of transformers currently applicable to it
per the hierarchy equals the recorded transformer set. -/
def IsAssetUpToDate (pipelines : List AssetPipelineDesc) (liveTime : FileTime)
    (d : AssetDesc) : Bool :=
  !d.cacheInvalid && liveTime == d.modificationTime
    && sameStringSet (GetApplicableTransformers pipelines d.resourceName) d.transformers

/-- Finds the pipeline descriptor with the given resource name, if any. -/
def findPipeline (pipelines : List AssetPipelineDesc) (name : ResPath) :
    Option AssetPipelineDesc :=
  pipelines.find? fun d => d.resourceName == name

/-- Modelled from the spec: whether a resource path has structurally changed
between two descriptor sets (present on one side only, or present on both with
different modification time or transformer/dependency content). -/
def pipelineChanged (oldPs newPs : List AssetPipelineDesc) (name : ResPath) : Bool :=
  match findPipeline oldPs name, findPipeline newPs name with
  | none, none => false
  | some o, some n => o != n
  | _, _ => true

/-- Every resource path mentioned by either descriptor set, without duplicates. -/
def diffDomain (oldPs newPs : List AssetPipelineDesc) : List ResPath :=
  ((oldPs ++ newPs).map fun d => d.resourceName).dedup

/-- Modelled from the spec: dependency edges declared by the pipeline
descriptors; a pair `(b, a)` declares that pipeline `b` depends on pipeline `a`. -/
def diffEdges (oldPs newPs : List AssetPipelineDesc) : List (ResPath × ResPath) :=
  (oldPs ++ newPs).flatMap fun d => d.dependencies

/-- One saturation step of dependency-aware invalidation: add every pipeline of
the domain that declares a dependency on a pipeline already in the set. -/
def addDependents (edges : List (ResPath × ResPath)) (domain : List ResPath)
    (s : List ResPath) : List ResPath :=
  s ++ domain.filter fun b => !(s.contains b) && edges.any fun e => e.1 == b && s.contains e.2

/-- Fuelled saturation of `addDependents`, stopping at the first fixed point. -/
def saturate (edges : List (ResPath × ResPath)) (domain : List ResPath) :
    Nat → List ResPath → List ResPath
  | 0, s => s
  | fuel + 1, s =>
    if (addDependents edges domain s).length = s.length then s
    else saturate edges domain fuel (addDependents edges domain s)

/-- Modelled from the spec: the set of resource paths reported by the pipeline
diff, namely the structurally changed paths closed under transitive
dependencies. -/
def diffClosure (oldPs newPs : List AssetPipelineDesc) : List ResPath :=
  saturate (diffEdges oldPs newPs) (diffDomain oldPs newPs)
    ((diffDomain oldPs newPs).length + 1)
    ((diffDomain oldPs newPs).filter (pipelineChanged oldPs newPs))

/-- Modelled from the spec: `AssetManager::DiffAssetPipelines`.  Maps each
reported resource path to the pair of (possibly absent) old and new
descriptors, mirroring `AssetPipelineDiff`. -/
def DiffAssetPipelines (oldPs newPs : List AssetPipelineDesc) :
    List (ResPath × (Option AssetPipelineDesc × Option AssetPipelineDesc)) :=
  (diffClosure oldPs newPs).map fun p => (p, (findPipeline oldPs p, findPipeline newPs p))

/-- Pipeline `b` depends on pipeline `a`, directly or through a chain of
declared dependency edges; every depending node must itself be a pipeline of
the domain. -/
def DependsOn (oldPs newPs : List AssetPipelineDesc) (b a : ResPath) : Prop :=
  Relation.ReflTransGen
    (fun x y => (x, y) ∈ diffEdges oldPs newPs ∧ x ∈ diffDomain oldPs newPs) b a

/-- Mirrors `AssetDesc::IsAnyTransformerUsed` (AssetManager.h): whether any of
the given transformer type names is in the record's applied-transformer set. -/
def IsAnyTransformerUsed (d : AssetDesc) (transformers : List String) : Bool :=
  transformers.any fun t => d.transformers.contains t

/-- Modelled from the spec: `AssetManager::InvalidateTransformedAssetsInPath`.
Marks invalid exactly the records under the path whose applied-transformer set
intersects the given transformer types; all other records are untouched. -/
def InvalidateTransformedAssetsInPath (assets : List (ResPath × AssetDesc))
    (resourcePath : ResPath) (transformers : List String) : List (ResPath × AssetDesc) :=
  assets.map fun e =>
    if resourcePath.isPrefixOf e.1 && IsAnyTransformerUsed e.2 transformers then
      (e.1, { e.2 with cacheInvalid := true })
    else e

/-- Modelled from the spec: `AssetManager::InvalidateAssetsInPath`.  Marks
invalid every record whose resource name is under the given path. -/
def InvalidateAssetsInPath (assets : List (ResPath × AssetDesc)) (resourcePath : ResPath) :
    List (ResPath × AssetDesc) :=
  assets.map fun e =>
    if resourcePath.isPrefixOf e.1 then (e.1, { e.2 with cacheInvalid := true }) else e

/-- Modelled from the spec: `AssetManager::CleanupCacheFolder` acting on the
removed records versus the remaining ones.  Returns the deleted orphaned output
paths and the output paths reported as configuration errors because another
remaining record still claims them. -/
def CleanupCacheFolder (removed remaining : List AssetDesc) :
    List ResPath × List ResPath :=
  let candidates := removed.flatMap fun d => d.outputs
  (candidates.filter fun o => !(remaining.any fun d => d.outputs.contains o),
   candidates.filter fun o => remaining.any fun d => d.outputs.contains o)

/-- Input to the pipeline loader: a discovered pipeline file with its parsed
content, or `none` when the file is malformed.  Parsed content is the list of
declared transformer type names and the declared dependency edges. -/
structure AssetPipelineFile where
  resourceName : ResPath
  modificationTime : FileTime
  content : Option (List String × List (ResPath × ResPath))
  deriving DecidableEq

/-- Modelled from the spec: `AssetManager::LoadAssetPipeline`.  A malformed
file yields an empty-transformer descriptor; an unknown transformer type is
skipped without failing the rest of the descriptor. -/
def LoadAssetPipeline (registry : List String) (f : AssetPipelineFile) : AssetPipelineDesc :=
  match f.content with
  | none => ⟨f.resourceName, f.modificationTime, [], []⟩
  | some (decls, deps) =>
    ⟨f.resourceName, f.modificationTime, decls.filter fun t => registry.contains t, deps⟩

/-- Modelled from the spec: `AssetManager::LoadAssetPipelines`, one descriptor
per discovered file. -/
def LoadAssetPipelines (registry : List String) (files : List AssetPipelineFile) :
    List AssetPipelineDesc :=
  files.map (LoadAssetPipeline registry)

/-- External world seen by one `Update` cycle: asset files on disk with their
modification times, the enumerated pipeline files with their modification
times, and the descriptors that loading the pipeline files currently yields. -/
structure AManEnv where
  assetFiles : List (ResPath × FileTime)
  pipelineFiles : List (ResPath × FileTime)
  loadedPipelines : List AssetPipelineDesc
  deriving DecidableEq

/-- Engine-owned state mirrored from AssetManager.h: the asset record map
(`assets_`), the stored pipeline file list (`assetPipelineFiles_`) and the
loaded pipeline descriptors (`assetPipelines_`). -/
structure AManState where
  assets : List (ResPath × AssetDesc)
  assetPipelineFiles : List (ResPath × FileTime)
  assetPipelines : List AssetPipelineDesc
  deriving DecidableEq

/-- Looks up the asset record for a resource name. -/
def lookupAsset (assets : List (ResPath × AssetDesc)) (p : ResPath) : Option AssetDesc :=
  (assets.find? fun e => e.1 == p).map fun e => e.2

/-- Stores an asset record, overwriting an existing record with the same key
and appending otherwise. -/
def setAsset (assets : List (ResPath × AssetDesc)) (p : ResPath) (d : AssetDesc) :
    List (ResPath × AssetDesc) :=
  if assets.any fun e => e.1 == p then
    assets.map fun e => if e.1 == p then (p, d) else e
  else assets ++ [(p, d)]

/-- Fresh asset record created when an asset is scanned for the first time. -/
def freshAssetDesc (p : ResPath) : AssetDesc :=
  ⟨p, [], [], 0, false⟩

/-- Appends a processing request unless one for the same resource name is
already queued. -/
def enqueueRequest (reqs : List ResPath) (p : ResPath) : List ResPath :=
  if reqs.contains p then reqs else reqs ++ [p]

/-- Modelled from the spec: scanning one asset file (`ScanAssetsInPath` body).
A file matched by no transformer is ignored and produces no record; otherwise
its record is looked up or created, and a processing request is enqueued
unless the record is up to date. -/
def scanOne (pipes : List AssetPipelineDesc)
    (acc : List (ResPath × AssetDesc) × List ResPath) (f : ResPath × FileTime) :
    List (ResPath × AssetDesc) × List ResPath :=
  let applicable := GetApplicableTransformers pipes f.1
  if applicable.isEmpty then acc
  else
    match lookupAsset acc.1 f.1 with
    | some d => if IsAssetUpToDate pipes f.2 d then acc else (acc.1, enqueueRequest acc.2 f.1)
    | none =>
      let d := freshAssetDesc f.1
      let assets := setAsset acc.1 f.1 d
      if IsAssetUpToDate pipes f.2 d then (assets, acc.2)
      else (assets, enqueueRequest acc.2 f.1)

/-- Modelled from the spec: `ScanAndQueueAssetProcessing`, scanning every asset
file and collecting the request queue. -/
def scanAll (pipes : List AssetPipelineDesc) (files : List (ResPath × FileTime))
    (assets : List (ResPath × AssetDesc)) :
    List (ResPath × AssetDesc) × List ResPath :=
  files.foldl (scanOne pipes) (assets, [])

/-- Modification time of a file on disk, zero when absent. -/
def mtimeOf (files : List (ResPath × FileTime)) (p : ResPath) : FileTime :=
  ((files.find? fun e => e.1 == p).map fun e => e.2).getD 0

/-- Modelled from the spec: the asset record committed by `ProcessAsset` after
a successful processing pass: outputs recorded, applied transformers set to
the currently applicable ones, modification time taken from the source file,
cache-invalid flag cleared.  Output naming is delegated to the transformers
and modelled as the asset's own path. -/
def processedAssetDesc (pipes : List AssetPipelineDesc) (files : List (ResPath × FileTime))
    (p : ResPath) : AssetDesc :=
  ⟨p, [p], GetApplicableTransformers pipes p, mtimeOf files p, false⟩

/-- Modelled from the spec: draining the request queue and committing each
processed record. -/
def processAll (pipes : List AssetPipelineDesc) (files : List (ResPath × FileTime))
    (assets : List (ResPath × AssetDesc)) (reqs : List ResPath) :
    List (ResPath × AssetDesc) :=
  reqs.foldl (fun acc p => setAsset acc p (processedAssetDesc pipes files p)) assets

/-- Modelled from the spec: `UpdateAssetPipelines` stage of `Update`.  When the
enumerated pipeline file list differs from the stored one, the new descriptors
are loaded, the diff is computed, every asset path reported by the diff is
invalidated, and the stored descriptor set and file list are replaced. -/
def UpdatePipelinesStage (env : AManEnv) (st : AManState) : AManState :=
  if st.assetPipelineFiles == env.pipelineFiles then st
  else
    let newPipelines := env.loadedPipelines
    let diff := DiffAssetPipelines st.assetPipelines newPipelines
    { assets := diff.foldl (fun acc e => InvalidateAssetsInPath acc e.1) st.assets,
      assetPipelineFiles := env.pipelineFiles,
      assetPipelines := newPipelines }

/-- Modelled from the spec: one `AssetManager::Update` cycle — reload pipelines
if their files changed, scan the asset files, enqueue stale assets and drain
the queue.  Returns the new state and the number of requests enqueued. -/
def Update (env : AManEnv) (st : AManState) : AManState × Nat :=
  let st₁ := UpdatePipelinesStage env st
  let scanned := scanAll st₁.assetPipelines env.assetFiles st₁.assets
  let finalAssets := processAll st₁.assetPipelines env.assetFiles scanned.1 scanned.2
  ({ st₁ with assets := finalAssets }, scanned.2.length)

/-- Largest value of a 32-bit unsigned index, `M_MAX_UNSIGNED`. -/
def M_MAX_UNSIGNED : Nat := 4294967295

/-- One iteration of the item-adding loop of `ListView::SetSelections`
(ListView.cpp): an index is appended when it is in range and not already
selected; the flag records whether any index was appended. -/
def addMissingStep (numItems : Nat) (acc : List Nat × Bool) (index : Nat) :
    List Nat × Bool :=
  if index < numItems then
    if acc.1.contains index then acc else (acc.1 ++ [index], true)
  else acc

/-- Adding loop of `ListView::SetSelections`: with multiselect it runs over all
requested indices, without multiselect it breaks after the first one. -/
def addMissing (multiselect : Bool) (numItems : Nat) (sel : List Nat)
    (indices : List Nat) : List Nat × Bool :=
  if multiselect then indices.foldl (addMissingStep numItems) (sel, false)
  else
    match indices with
    | [] => (sel, false)
    | i :: _ => addMissingStep numItems (sel, false) i

/-- Embeds `ListView::SetSelections` (ListView.cpp): first erase the selected
indices that are no longer requested, then add the missing requested indices,
re-sorting the selection vector when anything was added. -/
def SetSelections (multiselect : Bool) (numItems : Nat) (sel : List Nat)
    (indices : List Nat) : List Nat :=
  let kept := sel.filter fun i => indices.contains i
  let r := addMissing multiselect numItems kept indices
  if r.2 then List.insertionSort (· ≤ ·) r.1 else r.1

/-- Embeds `ListView::AddSelection` (ListView.cpp): without multiselect it
behaves as `SetSelection`; with multiselect an in-range, not yet selected
index is appended and the selection vector re-sorted. -/
def AddSelection (multiselect : Bool) (numItems : Nat) (sel : List Nat)
    (index : Nat) : List Nat :=
  if !multiselect then SetSelections multiselect numItems sel [index]
  else if numItems ≤ index then sel
  else if sel.contains index then sel
  else List.insertionSort (· ≤ ·) (sel ++ [index])

/-- Embeds `ListView::GetSelection` (ListView.cpp): `M_MAX_UNSIGNED` when the
selection vector is empty, its front element otherwise. -/
def GetSelection (sel : List Nat) : Nat :=
  match sel with
  | [] => M_MAX_UNSIGNED
  | i :: _ => i

/-- Integer rectangle with the field layout of `IntRect`. -/
structure IntRect where
  left : Int
  top : Int
  right : Int
  bottom : Int
  deriving DecidableEq

/-- Size of an `IntRect`, as in `IntRect::Size()`. -/
def rectSize (r : IntRect) : Int × Int :=
  (r.right - r.left, r.bottom - r.top)

/-- Per-shape data of `CursorShapeInfo` (Cursor.h) relevant to `SetShape`:
texture (by resource identifier), image rectangle and hot spot. -/
structure CursorShapeInfo where
  texture : String
  imageRect : IntRect
  hotSpot : Int × Int
  deriving DecidableEq

/-- Fields of `Cursor` (Cursor.h) touched by `SetShape`: current shape name,
current texture, current image rectangle, widget size, the OS-shape dirty flag
and the defined shape table. -/
structure CursorState where
  shape : String
  texture : String
  imageRect : IntRect
  size : Int × Int
  osShapeDirty : Bool
  shapeInfos : List (String × CursorShapeInfo)
  deriving DecidableEq

/-- Shape name `shapeNames[CS_BUSY]` (Cursor.cpp). -/
def busyShapeName : String := "Busy"

/-- Embeds `Cursor::ApplyOSCursorShape` (Cursor.cpp) restricted to the fields
of the model: it returns early when the shape is not dirty, the mouse is not
visible or this cursor is not the active UI cursor; otherwise it applies the
OS cursor (an external SDL effect) and clears the dirty flag. -/
def ApplyOSCursorShape (mouseVisible activeCursor : Bool) (c : CursorState) : CursorState :=
  if !c.osShapeDirty || !mouseVisible || !activeCursor then c
  else { c with osShapeDirty := false }

/-- Embeds `Cursor::SetShape(const String&)` (Cursor.cpp): a no-op for an
empty name, the current shape, or a shape missing from the table; otherwise
the current shape, texture, image rectangle and size are updated and the OS
shape is marked dirty — and applied at once when the new shape is the busy
shape. -/
def SetShape (mouseVisible activeCursor : Bool) (c : CursorState) (shape : String) :
    CursorState :=
  if shape = "" ∨ c.shape = shape ∨ (c.shapeInfos.find? fun e => e.1 == shape) = none then c
  else
    match c.shapeInfos.find? fun e => e.1 == shape with
    | none => c
    | some e =>
      let c₁ : CursorState :=
        { c with
          shape := shape
          texture := e.2.texture
          imageRect := e.2.imageRect
          size := rectSize e.2.imageRect
          osShapeDirty := true }
      if shape = busyShapeName then ApplyOSCursorShape mouseVisible activeCursor c₁ else c₁

/-- Concrete cursor state used to exercise `SetShape`: current shape is the
normal one and the table defines the normal and busy shapes. -/
def cursorEx : CursorState :=
  ⟨"Normal", "ntex", ⟨0, 0, 8, 8⟩, (8, 8), false,
    [("Normal", ⟨"ntex", ⟨0, 0, 8, 8⟩, (0, 0)⟩),
     ("Busy", ⟨"btex", ⟨0, 0, 16, 16⟩, (1, 1)⟩)]⟩

/-- Concrete old descriptor set: pipeline `a`, pipeline `b` depending on `a`,
and an unrelated pipeline `c`. -/
def oldPipesEx : List AssetPipelineDesc :=
  [⟨["a"], 1, ["TA"], []⟩, ⟨["b"], 5, ["TB"], [(["b"], ["a"])]⟩, ⟨["c"], 7, ["TC"], []⟩]

/-- Concrete new descriptor set: pipeline `a` touched (new modification time),
pipelines `b` and `c` identical to the old set. -/
def newPipesEx : List AssetPipelineDesc :=
  [⟨["a"], 2, ["TA"], []⟩, ⟨["b"], 5, ["TB"], [(["b"], ["a"])]⟩, ⟨["c"], 7, ["TC"], []⟩]

/-- Concrete environment used to exercise `Update`: two asset files under one
root pipeline declaring one transformer. -/
def envEx : AManEnv :=
  ⟨[(["t", "a.png"], 100), (["t", "b.png"], 50)], [([], 1)], [⟨[], 1, ["Texture"], []⟩]⟩

/-! Helper lemmas shared by several developments. -/

theorem sameStringSet_iff (a b : List String) :
    sameStringSet a b = true ↔ ∀ t, t ∈ a ↔ t ∈ b := by
  simp only [sameStringSet, Bool.and_eq_true, List.all_eq_true, List.elem_iff]
  constructor
  · rintro ⟨hab, hba⟩ t
    exact ⟨fun h => hab t h, fun h => hba t h⟩
  · intro h
    exact ⟨fun t ht => (h t).mp ht, fun t ht => (h t).mpr ht⟩

theorem sameStringSet_refl (a : List String) : sameStringSet a a = true :=
  (sameStringSet_iff a a).mpr fun _ => Iff.rfl

/-- C1: for every asset record, `IsAssetUpToDate` returns true iff the record's
cache-invalid flag is false, the live source modification time equals the
stored one, and the transformers applicable per the hierarchy equal the stored
transformer set; flipping the flag, changing the live time, or removing an
applicable transformer from the stored set each force a false result. -/
theorem isAssetUpToDate_spec (pipelines : List AssetPipelineDesc) (liveTime : FileTime)
    (d : AssetDesc) :
    (IsAssetUpToDate pipelines liveTime d = true ↔
      (d.cacheInvalid = false ∧ liveTime = d.modificationTime ∧
        ∀ t, t ∈ GetApplicableTransformers pipelines d.resourceName ↔ t ∈ d.transformers))
    ∧ IsAssetUpToDate pipelines liveTime { d with cacheInvalid := true } = false
    ∧ (liveTime ≠ d.modificationTime → IsAssetUpToDate pipelines liveTime d = false)
    ∧ (¬ (∀ t, t ∈ GetApplicableTransformers pipelines d.resourceName ↔ t ∈ d.transformers) →
        IsAssetUpToDate pipelines liveTime d = false) := by
  have main : IsAssetUpToDate pipelines liveTime d = true ↔
      (d.cacheInvalid = false ∧ liveTime = d.modificationTime ∧
        ∀ t, t ∈ GetApplicableTransformers pipelines d.resourceName ↔ t ∈ d.transformers) := by
    simp only [IsAssetUpToDate, Bool.and_eq_true, Bool.not_eq_true', beq_iff_eq,
      sameStringSet_iff]
    tauto
  refine ⟨main, ?_, ?_, ?_⟩
  · simp [IsAssetUpToDate]
  · intro hne
    rcases Bool.eq_false_or_eq_true (IsAssetUpToDate pipelines liveTime d) with h | h
    · exact absurd (main.mp h).2.1 hne
    · exact h
  · intro hns
    rcases Bool.eq_false_or_eq_true (IsAssetUpToDate pipelines liveTime d) with h | h
    · exact absurd (main.mp h).2.2 hns
    · exact h

/-- Witness for C1 at a concrete pipeline set and record. -/
theorem isAssetUpToDate_spec_witness :
    IsAssetUpToDate [⟨[], 0, ["A"], []⟩] 1 ⟨["x"], [], [], 0, false⟩ = false
    ∧ IsAssetUpToDate [⟨[], 0, ["A"], []⟩] 0 ⟨["x"], [], [], 0, false⟩ = false :=
  ⟨(isAssetUpToDate_spec [⟨[], 0, ["A"], []⟩] 1 ⟨["x"], [], [], 0, false⟩).2.2.1 (by decide),
   (isAssetUpToDate_spec [⟨[], 0, ["A"], []⟩] 0 ⟨["x"], [], [], 0, false⟩).2.2.2
     (fun hall => absurd ((hall ("A")).mp (by decide)) (by decide))⟩

/-- C7: cache cleanup deletes an output of a removed record exactly when no
remaining record claims the same output path; an output claimed by a remaining
record is reported as a configuration error instead of being deleted. -/
theorem cleanupCacheFolder_spec (removed remaining : List AssetDesc) (o : ResPath) :
    (o ∈ (CleanupCacheFolder removed remaining).1 ↔
      ((∃ d ∈ removed, o ∈ d.outputs) ∧ ¬ ∃ d ∈ remaining, o ∈ d.outputs))
    ∧ (o ∈ (CleanupCacheFolder removed remaining).2 ↔
      ((∃ d ∈ removed, o ∈ d.outputs) ∧ ∃ d ∈ remaining, o ∈ d.outputs)) := by
  simp [CleanupCacheFolder, List.mem_filter, List.mem_flatMap, List.any_eq_true,
    List.elem_iff]

/-- C8: pipeline loading is non-aborting: one descriptor per discovered file,
with a malformed file yielding an empty-transformer descriptor and an unknown
transformer type skipped without failing the rest of the descriptor. -/
theorem loadAssetPipelines_spec (registry : List String) (files : List AssetPipelineFile) :
    (LoadAssetPipelines registry files).length = files.length
    ∧ ∀ i (h1 : i < files.length) (h2 : i < (LoadAssetPipelines registry files).length),
        ((LoadAssetPipelines registry files).get ⟨i, h2⟩).resourceName
            = (files.get ⟨i, h1⟩).resourceName
        ∧ ((LoadAssetPipelines registry files).get ⟨i, h2⟩).modificationTime
            = (files.get ⟨i, h1⟩).modificationTime
        ∧ ((files.get ⟨i, h1⟩).content = none →
            ((LoadAssetPipelines registry files).get ⟨i, h2⟩).transformers = [])
        ∧ (∀ decls deps, (files.get ⟨i, h1⟩).content = some (decls, deps) →
            ((LoadAssetPipelines registry files).get ⟨i, h2⟩).transformers
              = decls.filter fun t => registry.contains t) := by
  refine ⟨by simp [LoadAssetPipelines], ?_⟩
  intro i h1 h2
  simp only [List.get_eq_getElem, LoadAssetPipelines, List.getElem_map]
  rcases hc : files[i].content with _ | ⟨decls, deps⟩
  · refine ⟨by simp [LoadAssetPipeline, hc], by simp [LoadAssetPipeline, hc],
      fun _ => by simp [LoadAssetPipeline, hc], fun decls deps hsome => ?_⟩
    cases hsome
  · refine ⟨by simp [LoadAssetPipeline, hc], by simp [LoadAssetPipeline, hc],
      fun hnone => ?_, fun decls2 deps2 hsome => ?_⟩
    · cases hnone
    · cases hsome
      simp [LoadAssetPipeline, hc]

/-- Witness for C8 at a concrete file list holding a malformed file and a file
declaring one known and one unknown transformer type. -/
theorem loadAssetPipelines_spec_witness :
    ((LoadAssetPipelines (["T"])
        ([⟨["p1"], 3, none⟩, ⟨["p2"], 4, some (["T", "Unknown"], [])⟩])).get
          ⟨0, by decide⟩).transformers = []
    ∧ ((LoadAssetPipelines (["T"])
        ([⟨["p1"], 3, none⟩, ⟨["p2"], 4, some (["T", "Unknown"], [])⟩])).get
          ⟨1, by decide⟩).transformers
        = (["T", "Unknown"]).filter fun t => (["T"] : List String).contains t :=
  ⟨((loadAssetPipelines_spec (["T"])
        ([⟨["p1"], 3, none⟩, ⟨["p2"], 4, some (["T", "Unknown"], [])⟩])).2
      0 (by decide) (by decide)).2.2.1 (by decide),
   ((loadAssetPipelines_spec (["T"])
        ([⟨["p1"], 3, none⟩, ⟨["p2"], 4, some (["T", "Unknown"], [])⟩])).2
      1 (by decide) (by decide)).2.2.2 (["T", "Unknown"]) [] (by decide)⟩

/-- C4: the applicable transformers of an asset path are exactly those declared
by pipeline descriptors whose resource path is an ancestor directory of (or
equal to) the asset's path; in the spec's concrete scenario, a pipeline at the
root declaring transformer A and a pipeline at `sub` declaring transformer B
resolve `sub/x.png` to `[A, B]` in root-to-leaf order and `other/y.png` to
`[A]` only. -/
theorem getApplicableTransformers_spec :
    (∀ (pipelines : List AssetPipelineDesc) (p : ResPath) (t : String),
        t ∈ GetApplicableTransformers pipelines p ↔
          ∃ d ∈ pipelines, d.resourceName <+: p ∧ t ∈ d.transformers)
    ∧ GetApplicableTransformers [⟨[], 0, ["A"], []⟩, ⟨["sub"], 0, ["B"], []⟩]
        (["sub", "x.png"]) = ["A", "B"]
    ∧ GetApplicableTransformers [⟨[], 0, ["A"], []⟩, ⟨["sub"], 0, ["B"], []⟩]
        (["other", "y.png"]) = ["A"] := by
  refine ⟨?_, by decide, by decide⟩
  intro pipelines p t
  simp only [GetApplicableTransformers, List.mem_flatMap, List.mem_filter, List.mem_range,
    beq_iff_eq]
  constructor
  · rintro ⟨i, _, d, ⟨hd, hname⟩, ht⟩
    exact ⟨d, hd, hname ▸ List.take_prefix i p, ht⟩
  · rintro ⟨d, hd, hpre, ht⟩
    refine ⟨d.resourceName.length, ?_, d, ⟨hd, ?_⟩, ht⟩
    · have := hpre.length_le
      omega
    · exact List.prefix_iff_eq_take.mp hpre

/-- C6: invalidation by transformer type marks invalid exactly those records
under the path whose applied-transformer set intersects the changed types,
and leaves every other record entirely unchanged. -/
theorem invalidateTransformedAssetsInPath_spec (assets : List (ResPath × AssetDesc))
    (resourcePath : ResPath) (transformers : List String) :
    (InvalidateTransformedAssetsInPath assets resourcePath transformers).length = assets.length
    ∧ ∀ i (h1 : i < assets.length)
        (h2 : i < (InvalidateTransformedAssetsInPath assets resourcePath transformers).length),
        ((InvalidateTransformedAssetsInPath assets resourcePath transformers).get ⟨i, h2⟩).1
            = (assets.get ⟨i, h1⟩).1
        ∧ ((resourcePath <+: (assets.get ⟨i, h1⟩).1 ∧
              ∃ t ∈ transformers, t ∈ (assets.get ⟨i, h1⟩).2.transformers) →
            ((InvalidateTransformedAssetsInPath assets resourcePath transformers).get ⟨i, h2⟩).2
              = { (assets.get ⟨i, h1⟩).2 with cacheInvalid := true })
        ∧ (¬ (resourcePath <+: (assets.get ⟨i, h1⟩).1 ∧
              ∃ t ∈ transformers, t ∈ (assets.get ⟨i, h1⟩).2.transformers) →
            (InvalidateTransformedAssetsInPath assets resourcePath transformers).get ⟨i, h2⟩
              = assets.get ⟨i, h1⟩) := by
  refine ⟨by simp [InvalidateTransformedAssetsInPath], ?_⟩
  intro i h1 h2
  simp only [List.get_eq_getElem, InvalidateTransformedAssetsInPath, List.getElem_map]
  have hcond : (resourcePath.isPrefixOf assets[i].1
        && IsAnyTransformerUsed assets[i].2 transformers) = true ↔
      (resourcePath <+: assets[i].1 ∧
        ∃ t ∈ transformers, t ∈ assets[i].2.transformers) := by
    simp [IsAnyTransformerUsed, List.isPrefixOf_iff_prefix, List.any_eq_true, List.elem_iff]
  rcases hb : (resourcePath.isPrefixOf assets[i].1
      && IsAnyTransformerUsed assets[i].2 transformers) with _ | _
  · have hnot : ¬ (resourcePath <+: assets[i].1 ∧
        ∃ t ∈ transformers, t ∈ assets[i].2.transformers) := by
      intro hyes
      rw [hcond.mpr hyes] at hb
      cases hb
    exact ⟨rfl, fun hyes => absurd hyes hnot, fun _ => rfl⟩
  · have hyes := hcond.mp hb
    exact ⟨rfl, fun _ => rfl, fun hno => absurd hyes hno⟩

/-- Witness for C6 at a concrete record list: the matching record is marked
invalid, the record using an unrelated transformer type is untouched. -/
theorem invalidateTransformedAssetsInPath_spec_witness :
    ((InvalidateTransformedAssetsInPath
        [(["t", "a.png"], ⟨["t", "a.png"], [], ["TA"], 5, false⟩),
         (["t", "b.png"], ⟨["t", "b.png"], [], ["TB"], 6, false⟩)]
        (["t"]) (["TA"])).get ⟨0, by decide⟩).2
      = { (⟨["t", "a.png"], [], ["TA"], 5, false⟩ : AssetDesc) with cacheInvalid := true }
    ∧ (InvalidateTransformedAssetsInPath
        [(["t", "a.png"], ⟨["t", "a.png"], [], ["TA"], 5, false⟩),
         (["t", "b.png"], ⟨["t", "b.png"], [], ["TB"], 6, false⟩)]
        (["t"]) (["TA"])).get ⟨1, by decide⟩
      = (["t", "b.png"], ⟨["t", "b.png"], [], ["TB"], 6, false⟩) :=
  ⟨((invalidateTransformedAssetsInPath_spec
        [(["t", "a.png"], ⟨["t", "a.png"], [], ["TA"], 5, false⟩),
         (["t", "b.png"], ⟨["t", "b.png"], [], ["TB"], 6, false⟩)]
        (["t"]) (["TA"])).2 0 (by decide) (by decide)).2.1
      (by decide),
   ((invalidateTransformedAssetsInPath_spec
        [(["t", "a.png"], ⟨["t", "a.png"], [], ["TA"], 5, false⟩),
         (["t", "b.png"], ⟨["t", "b.png"], [], ["TB"], 6, false⟩)]
        (["t"]) (["TA"])).2 1 (by decide) (by decide)).2.2
      (by decide)⟩

theorem addMissingStep_cases (n : Nat) (acc : List Nat × Bool) (i : Nat) :
    addMissingStep n acc i = acc ∨ (addMissingStep n acc i).2 = true := by
  unfold addMissingStep
  split
  · split
    · exact Or.inl rfl
    · exact Or.inr rfl
  · exact Or.inl rfl

theorem foldl_addMissingStep_flag (n : Nat) (idxs : List Nat) (acc : List Nat × Bool)
    (h : acc.2 = true) : (idxs.foldl (addMissingStep n) acc).2 = true := by
  induction idxs generalizing acc with
  | nil => exact h
  | cons i is ih =>
    rcases addMissingStep_cases n acc i with hc | hc
    · rw [List.foldl_cons, hc]
      exact ih acc h
    · rw [List.foldl_cons]
      exact ih _ hc

theorem foldl_addMissingStep_false (n : Nat) (idxs : List Nat) (acc : List Nat × Bool)
    (h : (idxs.foldl (addMissingStep n) acc).2 = false) :
    idxs.foldl (addMissingStep n) acc = acc := by
  induction idxs generalizing acc with
  | nil => rfl
  | cons i is ih =>
    rcases addMissingStep_cases n acc i with hc | hc
    · rw [List.foldl_cons, hc] at h ⊢
      exact ih acc h
    · rw [List.foldl_cons] at h
      rw [foldl_addMissingStep_flag n is _ hc] at h
      cases h

theorem addMissing_false (m : Bool) (n : Nat) (sel idxs : List Nat)
    (h : (addMissing m n sel idxs).2 = false) : (addMissing m n sel idxs).1 = sel := by
  rcases Bool.eq_false_or_eq_true m with hm | hm
  · simp only [addMissing, hm, if_true] at h ⊢
    rw [foldl_addMissingStep_false n idxs (sel, false) h]
  · rcases idxs with _ | ⟨i, is⟩
    · simp [addMissing, hm]
    · simp only [addMissing, hm, Bool.false_eq_true, if_false] at h ⊢
      rcases addMissingStep_cases n (sel, false) i with hc | hc
      · rw [hc]
      · rw [hc] at h
        cases h

/-- C9: the ListView selection vector stays sorted in ascending order across
`SetSelections` and `AddSelection`, so `GetSelection` returns `M_MAX_UNSIGNED`
when nothing is selected and the smallest selected index otherwise. -/
theorem listView_selection_sorted (multiselect : Bool) (numItems : Nat)
    (sel indices : List Nat) (index : Nat) (hs : List.Sorted (· ≤ ·) sel) :
    List.Sorted (· ≤ ·) (SetSelections multiselect numItems sel indices)
    ∧ List.Sorted (· ≤ ·) (AddSelection multiselect numItems sel index)
    ∧ (sel = [] → GetSelection sel = M_MAX_UNSIGNED)
    ∧ (sel ≠ [] → GetSelection sel ∈ sel ∧ ∀ j ∈ sel, GetSelection sel ≤ j) := by
  have key : ∀ idxs, List.Sorted (· ≤ ·) (SetSelections multiselect numItems sel idxs) := by
    intro idxs
    have hksorted : List.Sorted (· ≤ ·) (sel.filter fun i => idxs.contains i) :=
      hs.filter _
    rcases Bool.eq_false_or_eq_true
        ((addMissing multiselect numItems (sel.filter fun i => idxs.contains i) idxs).2)
      with hr | hr
    · simp only [SetSelections, hr, if_true]
      exact List.sorted_insertionSort _ _
    · simp only [SetSelections, hr, Bool.false_eq_true, if_false]
      rw [addMissing_false _ _ _ _ hr]
      exact hksorted
  refine ⟨key indices, ?_, ?_, ?_⟩
  · rcases Bool.eq_false_or_eq_true multiselect with hm | hm
    · by_cases h1 : numItems ≤ index
      · simp only [AddSelection, hm, Bool.not_true, Bool.false_eq_true, if_false, if_pos h1]
        exact hs
      · rcases Bool.eq_false_or_eq_true (sel.contains index) with h2 | h2
        · simp only [AddSelection, hm, Bool.not_true, Bool.false_eq_true, if_false,
            if_neg h1, if_pos h2]
          exact hs
        · have h2n : ¬ sel.contains index = true := by
            rw [h2]
            exact Bool.false_ne_true
          simp only [AddSelection, hm, Bool.not_true, Bool.false_eq_true, if_false,
            if_neg h1, if_neg h2n]
          exact List.sorted_insertionSort _ _
    · have hgoal := key [index]
      simp only [AddSelection, hm, Bool.not_false, if_true]
      rw [hm] at hgoal
      exact hgoal
  · intro h
    rw [h]
    rfl
  · intro hne
    cases sel with
    | nil => exact absurd rfl hne
    | cons x rest =>
      refine ⟨List.mem_cons_self x rest, ?_⟩
      intro j hj
      rcases List.mem_cons.mp hj with rfl | hj
      · exact Nat.le_refl _
      · exact (List.sorted_cons.mp hs).1 j hj

/-- Witness for C9 at concrete selections. -/
theorem listView_selection_sorted_witness :
    List.Sorted (· ≤ ·) (SetSelections true 10 [1, 3] [5, 2, 1])
    ∧ List.Sorted (· ≤ ·) (AddSelection true 10 [1, 3] 2)
    ∧ (GetSelection [1, 3] ∈ [1, 3] ∧ ∀ j ∈ [1, 3], GetSelection [1, 3] ≤ j) :=
  ⟨(listView_selection_sorted true 10 [1, 3] [5, 2, 1] 2 (by decide)).1,
   (listView_selection_sorted true 10 [1, 3] [5, 2, 1] 2 (by decide)).2.1,
   (listView_selection_sorted true 10 [1, 3] [5, 2, 1] 2 (by decide)).2.2.2 (by decide)⟩

/-- C10 counterexample: switching from the normal shape to the defined,
different, non-empty busy shape while the mouse is visible and this cursor is
active updates the shape but leaves the OS-shape dirty flag false, because the
busy shape is applied immediately (Cursor.cpp lines 190-192 and the trailing
assignment of `ApplyOSCursorShape`), contradicting the claim that every such
call marks the OS cursor shape dirty. -/
theorem setShape_busy_dirty_counterexample :
    busyShapeName ≠ ""
    ∧ cursorEx.shape ≠ busyShapeName
    ∧ (cursorEx.shapeInfos.find? fun e => e.1 == busyShapeName) ≠ none
    ∧ (SetShape true true cursorEx busyShapeName).shape = busyShapeName
    ∧ (SetShape true true cursorEx busyShapeName).osShapeDirty = false := by
  decide

/-- C10 amended: `SetShape` is a no-op when the requested shape name is empty,
equals the current shape or has no entry in the shape table; otherwise it
updates the current shape, texture, image rectangle and size, leaves the shape
table unchanged, and leaves the OS shape dirty — except that the busy shape is
applied immediately, which consumes the dirty flag exactly when the mouse is
visible and this cursor is the active UI cursor. -/
theorem setShape_spec (mv ac : Bool) (c : CursorState) (shape : String) :
    ((shape = "" ∨ c.shape = shape ∨ (c.shapeInfos.find? fun e => e.1 == shape) = none) →
      SetShape mv ac c shape = c)
    ∧ (∀ e : String × CursorShapeInfo, shape ≠ "" → c.shape ≠ shape →
        (c.shapeInfos.find? fun x => x.1 == shape) = some e →
        (SetShape mv ac c shape).shape = shape
        ∧ (SetShape mv ac c shape).texture = e.2.texture
        ∧ (SetShape mv ac c shape).imageRect = e.2.imageRect
        ∧ (SetShape mv ac c shape).size = rectSize e.2.imageRect
        ∧ (SetShape mv ac c shape).shapeInfos = c.shapeInfos
        ∧ ((SetShape mv ac c shape).osShapeDirty = false ↔
            (shape = busyShapeName ∧ mv = true ∧ ac = true))) := by
  constructor
  · intro h
    simp only [SetShape, if_pos h]
  · intro e hne hcur hfind
    have hred : SetShape mv ac c shape =
        (if shape = busyShapeName then
          ApplyOSCursorShape mv ac
            { c with shape := shape, texture := e.2.texture, imageRect := e.2.imageRect,
                     size := rectSize e.2.imageRect, osShapeDirty := true }
         else
          { c with shape := shape, texture := e.2.texture, imageRect := e.2.imageRect,
                   size := rectSize e.2.imageRect, osShapeDirty := true }) := by
      simp [SetShape, hfind, hne, hcur]
    rw [hred]
    by_cases hbusy : shape = busyShapeName
    · rw [if_pos hbusy]
      rcases Bool.eq_false_or_eq_true mv with hmv | hmv <;>
        rcases Bool.eq_false_or_eq_true ac with hac | hac <;>
          subst hmv <;> subst hac <;> simp [ApplyOSCursorShape, hbusy]
    · rw [if_neg hbusy]
      simp [hbusy]

/-- Witness for the amended C10 at concrete cursor states: a shape missing
from the table is a no-op, and the busy shape applied with visible mouse and
active cursor consumes the dirty flag. -/
theorem setShape_spec_witness :
    SetShape true true cursorEx ("IBeam") = cursorEx
    ∧ (SetShape true true cursorEx busyShapeName).osShapeDirty = false :=
  ⟨(setShape_spec true true cursorEx ("IBeam")).1 (by decide),
   (((setShape_spec true true cursorEx busyShapeName).2
        (("Busy"), ⟨"btex", ⟨0, 0, 16, 16⟩, (1, 1)⟩) (by decide) (by decide)
        (by decide)).2.2.2.2.2).mpr ⟨rfl, rfl, rfl⟩⟩

/-! Saturation lemmas for the dependency-aware pipeline diff. -/

theorem subset_addDependents (edges : List (ResPath × ResPath)) (domain s : List ResPath) :
    s ⊆ addDependents edges domain s :=
  fun _ hx => List.mem_append.mpr (Or.inl hx)

theorem subset_saturate (edges : List (ResPath × ResPath)) (domain : List ResPath) :
    ∀ fuel s, s ⊆ saturate edges domain fuel s := by
  intro fuel
  induction fuel with
  | zero => intro s x hx; exact hx
  | succ n ih =>
    intro s x hx
    simp only [saturate]
    split
    · exact hx
    · exact ih _ (subset_addDependents edges domain s hx)

theorem mem_addDependents (edges : List (ResPath × ResPath)) (domain s : List ResPath)
    (b : ResPath) (h : b ∈ addDependents edges domain s) :
    b ∈ s ∨ (b ∈ domain ∧ ∃ a ∈ s, (b, a) ∈ edges) := by
  rcases List.mem_append.mp h with h | h
  · exact Or.inl h
  · right
    rcases List.mem_filter.mp h with ⟨hdom, hcond⟩
    simp only [Bool.and_eq_true, List.any_eq_true, beq_iff_eq, List.elem_iff] at hcond
    rcases hcond with ⟨-, e, he, he1, he2⟩
    refine ⟨hdom, e.2, he2, ?_⟩
    rw [← he1, Prod.mk.eta]
    exact he

theorem saturate_sound (edges : List (ResPath × ResPath)) (domain : List ResPath) :
    ∀ fuel s x, x ∈ saturate edges domain fuel s →
      ∃ a ∈ s, Relation.ReflTransGen (fun u v => (u, v) ∈ edges ∧ u ∈ domain) x a := by
  intro fuel
  induction fuel with
  | zero => intro s x hx; exact ⟨x, hx, Relation.ReflTransGen.refl⟩
  | succ n ih =>
    intro s x hx
    simp only [saturate] at hx
    split at hx
    · exact ⟨x, hx, Relation.ReflTransGen.refl⟩
    · rcases ih _ x hx with ⟨a, ha, hrtg⟩
      rcases mem_addDependents edges domain s a ha with ha2 | ⟨hdom, a2, ha2, hedge⟩
      · exact ⟨a, ha2, hrtg⟩
      · exact ⟨a2, ha2, hrtg.tail ⟨hedge, hdom⟩⟩

theorem addDependents_fix (edges : List (ResPath × ResPath)) (domain s : List ResPath)
    (h : (addDependents edges domain s).length = s.length) :
    ∀ b ∈ domain, (∃ a ∈ s, (b, a) ∈ edges) → b ∈ s := by
  have hfil : (domain.filter fun b =>
      !(s.contains b) && edges.any fun e => e.1 == b && s.contains e.2) = [] := by
    rw [addDependents, List.length_append] at h
    have hz : (domain.filter fun b =>
        !(s.contains b) && edges.any fun e => e.1 == b && s.contains e.2).length = 0 := by
      omega
    exact List.length_eq_zero.mp hz
  rintro b hdom ⟨a, ha, hedge⟩
  by_cases hb : b ∈ s
  · exact hb
  · exfalso
    have hmem : b ∈ domain.filter fun b =>
        !(s.contains b) && edges.any fun e => e.1 == b && s.contains e.2 := by
      refine List.mem_filter.mpr ⟨hdom, ?_⟩
      simp only [Bool.and_eq_true, Bool.not_eq_true', List.any_eq_true, beq_iff_eq,
        List.elem_iff]
      refine ⟨by simp [hb], (b, a), hedge, rfl, ha⟩
    rw [hfil] at hmem
    cases hmem

theorem addDependents_nodup (edges : List (ResPath × ResPath)) (domain s : List ResPath)
    (hs : s.Nodup) (hd : domain.Nodup) : (addDependents edges domain s).Nodup := by
  refine hs.append (hd.filter _) ?_
  intro a ha hafil
  rcases List.mem_filter.mp hafil with ⟨-, hcond⟩
  simp only [Bool.and_eq_true, Bool.not_eq_true', List.elem_iff] at hcond
  rcases hcond with ⟨hnc, -⟩
  have h1 : s.contains a = true := List.elem_iff.mpr ha
  rw [hnc] at h1
  cases h1

theorem addDependents_subset_domain (edges : List (ResPath × ResPath))
    (domain s : List ResPath) (hsub : s ⊆ domain) :
    addDependents edges domain s ⊆ domain := by
  intro x hx
  rcases List.mem_append.mp hx with h | h
  · exact hsub h
  · exact (List.mem_filter.mp h).1

theorem saturate_reaches_fix (edges : List (ResPath × ResPath)) (domain : List ResPath) :
    ∀ fuel s, s.Nodup → s ⊆ domain → domain.Nodup →
      domain.length < fuel + s.length →
      (addDependents edges domain (saturate edges domain fuel s)).length
        = (saturate edges domain fuel s).length := by
  intro fuel
  induction fuel with
  | zero =>
    intro s hnd hsub hdnd hlen
    exact absurd (hnd.subperm hsub).length_le (by omega)
  | succ n ih =>
    intro s hnd hsub hdnd hlen
    simp only [saturate]
    by_cases hc : (addDependents edges domain s).length = s.length
    · rw [if_pos hc]
      exact hc
    · rw [if_neg hc]
      refine ih _ (addDependents_nodup edges domain s hnd hdnd)
        (addDependents_subset_domain edges domain s hsub) hdnd ?_
      have hsplit : (addDependents edges domain s).length
          = s.length + (domain.filter fun b =>
              !(s.contains b) && edges.any fun e => e.1 == b && s.contains e.2).length := by
        rw [addDependents, List.length_append]
      omega

theorem diffClosure_closed (oldPs newPs : List AssetPipelineDesc) :
    ∀ b ∈ diffDomain oldPs newPs,
      (∃ a ∈ diffClosure oldPs newPs, (b, a) ∈ diffEdges oldPs newPs) →
      b ∈ diffClosure oldPs newPs := by
  apply addDependents_fix
  apply saturate_reaches_fix
  · exact (List.nodup_dedup _).filter _
  · exact List.filter_subset' _
  · exact List.nodup_dedup _
  · have hle : ((diffDomain oldPs newPs).filter (pipelineChanged oldPs newPs)).length
        ≤ (diffDomain oldPs newPs).length := List.length_filter_le _ _
    omega

theorem mem_diffClosure_of_changed (oldPs newPs : List AssetPipelineDesc) (p : ResPath)
    (hdom : p ∈ diffDomain oldPs newPs)
    (hch : pipelineChanged oldPs newPs p = true) : p ∈ diffClosure oldPs newPs :=
  subset_saturate _ _ _ _ (List.mem_filter.mpr ⟨hdom, hch⟩)

theorem diffClosure_sound (oldPs newPs : List AssetPipelineDesc) (x : ResPath)
    (hx : x ∈ diffClosure oldPs newPs) :
    ∃ a, DependsOn oldPs newPs x a ∧ pipelineChanged oldPs newPs a = true := by
  rcases saturate_sound (diffEdges oldPs newPs) (diffDomain oldPs newPs) _ _ x hx
    with ⟨a, ha, hrtg⟩
  exact ⟨a, hrtg, (List.mem_filter.mp ha).2⟩

theorem mem_diffDomain_of_findPipeline_old (oldPs newPs : List AssetPipelineDesc)
    (p : ResPath) (o : AssetPipelineDesc) (h : findPipeline oldPs p = some o) :
    p ∈ diffDomain oldPs newPs := by
  have hmem : o ∈ oldPs := List.mem_of_find?_eq_some h
  have hname : o.resourceName = p := by
    have := List.find?_some h
    simpa using this
  refine List.mem_dedup.mpr (List.mem_map.mpr ⟨o, ?_, hname⟩)
  exact List.mem_append.mpr (Or.inl hmem)

theorem mem_diffDomain_of_findPipeline_new (oldPs newPs : List AssetPipelineDesc)
    (p : ResPath) (n : AssetPipelineDesc) (h : findPipeline newPs p = some n) :
    p ∈ diffDomain oldPs newPs := by
  have hmem : n ∈ newPs := List.mem_of_find?_eq_some h
  have hname : n.resourceName = p := by
    have := List.find?_some h
    simpa using this
  refine List.mem_dedup.mpr (List.mem_map.mpr ⟨n, ?_, hname⟩)
  exact List.mem_append.mpr (Or.inr hmem)

/-- C3: the pipeline diff is transitively dependency-closed: every pipeline
depending, directly or through a chain of declared dependency edges, on a
structurally changed pipeline appears in the diff, and every path in the diff
reaches some structurally changed path through the dependency relation (so no
unrelated pipeline appears). -/
theorem diffAssetPipelines_dependency_closure (oldPs newPs : List AssetPipelineDesc) :
    (∀ b a, DependsOn oldPs newPs b a → pipelineChanged oldPs newPs a = true →
        a ∈ diffDomain oldPs newPs → ∃ e ∈ DiffAssetPipelines oldPs newPs, e.1 = b)
    ∧ (∀ e ∈ DiffAssetPipelines oldPs newPs,
        ∃ a, DependsOn oldPs newPs e.1 a ∧ pipelineChanged oldPs newPs a = true) := by
  constructor
  · intro b a hdep hch hadom
    have hmem : b ∈ diffClosure oldPs newPs := by
      induction hdep using Relation.ReflTransGen.head_induction_on with
      | refl => exact mem_diffClosure_of_changed oldPs newPs a hadom hch
      | head hstep _ ih =>
        exact diffClosure_closed oldPs newPs _ hstep.2 ⟨_, ih, hstep.1⟩
    exact ⟨(b, (findPipeline oldPs b, findPipeline newPs b)),
      List.mem_map_of_mem _ hmem, rfl⟩
  · intro e he
    rcases List.mem_map.mp he with ⟨p, hp, rfl⟩
    exact diffClosure_sound oldPs newPs p hp

/-- Witness for C3: pipeline `b` depends on touched pipeline `a`, so `b`
appears in the concrete diff although its own file is unchanged. -/
theorem diffAssetPipelines_dependency_closure_witness :
    ∃ e ∈ DiffAssetPipelines oldPipesEx newPipesEx, e.1 = ["b"] :=
  (diffAssetPipelines_dependency_closure oldPipesEx newPipesEx).1 (["b"]) (["a"])
    (Relation.ReflTransGen.single (by decide)) (by decide) (by decide)

/-- C2 counterexample: in the concrete descriptor sets, pipeline `b` has
identical old and new content, yet it appears in the diff because it declares a
dependency on the changed pipeline `a`; so the diff does not omit every path
whose old and new content are identical. -/
theorem diffAssetPipelines_identical_not_omitted :
    findPipeline oldPipesEx (["b"]) = findPipeline newPipesEx (["b"])
    ∧ (findPipeline oldPipesEx (["b"])).isSome = true
    ∧ (∃ e ∈ DiffAssetPipelines oldPipesEx newPipesEx, e.1 = ["b"]) := by
  decide

/-- C2 amended: a path present only in the old set maps to (old, none), only in
the new set to (none, new), present in both with different content to
(old, new); a path whose old and new content are identical is omitted unless it
transitively depends on a structurally changed path. -/
theorem diffAssetPipelines_spec (oldPs newPs : List AssetPipelineDesc) (p : ResPath) :
    (∀ o, findPipeline oldPs p = some o → findPipeline newPs p = none →
        (p, (some o, none)) ∈ DiffAssetPipelines oldPs newPs)
    ∧ (∀ n, findPipeline oldPs p = none → findPipeline newPs p = some n →
        (p, (none, some n)) ∈ DiffAssetPipelines oldPs newPs)
    ∧ (∀ o n, findPipeline oldPs p = some o → findPipeline newPs p = some n → o ≠ n →
        (p, (some o, some n)) ∈ DiffAssetPipelines oldPs newPs)
    ∧ ((∀ a, DependsOn oldPs newPs p a → pipelineChanged oldPs newPs a = false) →
        ∀ e ∈ DiffAssetPipelines oldPs newPs, e.1 ≠ p) := by
  refine ⟨?_, ?_, ?_, ?_⟩
  · intro o ho hn
    have hch : pipelineChanged oldPs newPs p = true := by
      simp [pipelineChanged, ho, hn]
    have hcl := mem_diffClosure_of_changed oldPs newPs p
      (mem_diffDomain_of_findPipeline_old oldPs newPs p o ho) hch
    refine List.mem_map.mpr ⟨p, hcl, ?_⟩
    simp [ho, hn]
  · intro n ho hn
    have hch : pipelineChanged oldPs newPs p = true := by
      simp [pipelineChanged, ho, hn]
    have hcl := mem_diffClosure_of_changed oldPs newPs p
      (mem_diffDomain_of_findPipeline_new oldPs newPs p n hn) hch
    refine List.mem_map.mpr ⟨p, hcl, ?_⟩
    simp [ho, hn]
  · intro o n ho hn hne
    have hch : pipelineChanged oldPs newPs p = true := by
      simp [pipelineChanged, ho, hn, bne_iff_ne, hne]
    have hcl := mem_diffClosure_of_changed oldPs newPs p
      (mem_diffDomain_of_findPipeline_old oldPs newPs p o ho) hch
    refine List.mem_map.mpr ⟨p, hcl, ?_⟩
    simp [ho, hn]
  · intro hnone e he hep
    rcases List.mem_map.mp he with ⟨q, hq, rfl⟩
    rcases diffClosure_sound oldPs newPs q hq with ⟨a, hdep, hch⟩
    rw [show q = p from hep] at hdep
    rw [hnone a hdep] at hch
    cases hch

/-- Witness for the amended C2: a removed path, an added path, a changed path
and an unrelated identical path, each at concrete descriptor sets. -/
theorem diffAssetPipelines_spec_witness :
    ((["r"], (some ⟨["r"], 1, [], []⟩, none))
        ∈ DiffAssetPipelines [⟨["r"], 1, [], []⟩] [])
    ∧ ((["n"], (none, some ⟨["n"], 2, [], []⟩))
        ∈ DiffAssetPipelines [] [⟨["n"], 2, [], []⟩])
    ∧ ((["a"], (some ⟨["a"], 1, ["TA"], []⟩, some ⟨["a"], 2, ["TA"], []⟩))
        ∈ DiffAssetPipelines oldPipesEx newPipesEx)
    ∧ (∀ e ∈ DiffAssetPipelines oldPipesEx newPipesEx, e.1 ≠ ["c"]) := by
  refine ⟨?_, ?_, ?_, ?_⟩
  · exact (diffAssetPipelines_spec [⟨["r"], 1, [], []⟩] [] (["r"])).1
      ⟨["r"], 1, [], []⟩ (by decide) (by decide)
  · exact (diffAssetPipelines_spec [] [⟨["n"], 2, [], []⟩] (["n"])).2.1
      ⟨["n"], 2, [], []⟩ (by decide) (by decide)
  · exact (diffAssetPipelines_spec oldPipesEx newPipesEx (["a"])).2.2.1
      ⟨["a"], 1, ["TA"], []⟩ ⟨["a"], 2, ["TA"], []⟩ (by decide) (by decide) (by decide)
  · refine (diffAssetPipelines_spec oldPipesEx newPipesEx (["c"])).2.2.2 ?_
    intro a h
    rcases h.cases_head with heq | ⟨mid, hmid, -⟩
    · rw [← heq]
      decide
    · exfalso
      have hfst : (["c"] : ResPath) ∈ (diffEdges oldPipesEx newPipesEx).map Prod.fst :=
        List.mem_map_of_mem Prod.fst hmid.1
      exact absurd hfst (by decide)

/-! Lemmas about the asset record store used by `Update`. -/

theorem find?_map_set (assets : List (ResPath × AssetDesc)) (p : ResPath) (d : AssetDesc) :
    (assets.map fun e => if e.1 == p then (p, d) else e).find? (fun e => e.1 == p)
      = if assets.any (fun e => e.1 == p) then some (p, d) else none := by
  induction assets with
  | nil => rfl
  | cons e es ih =>
    rcases hpa : (e.1 == p) with _ | _
    · simp only [List.map_cons, hpa, Bool.false_eq_true, if_false, List.any_cons,
        Bool.false_or]
      rw [List.find?_cons_of_neg _ (by rw [hpa]; exact Bool.false_ne_true)]
      exact ih
    · simp only [List.map_cons, hpa, if_true, List.any_cons, Bool.true_or]
      rw [List.find?_cons_of_pos _ (by simp)]

theorem find?_map_set_ne (assets : List (ResPath × AssetDesc)) (p q : ResPath)
    (d : AssetDesc) (hqp : q ≠ p) :
    (assets.map fun e => if e.1 == p then (p, d) else e).find? (fun e => e.1 == q)
      = assets.find? (fun e => e.1 == q) := by
  induction assets with
  | nil => rfl
  | cons e es ih =>
    rcases hpa : (e.1 == p) with _ | _
    · simp only [List.map_cons, hpa, Bool.false_eq_true, if_false]
      rcases hqa : (e.1 == q) with _ | _
      · rw [List.find?_cons_of_neg _ (by rw [hqa]; exact Bool.false_ne_true),
          List.find?_cons_of_neg _ (by rw [hqa]; exact Bool.false_ne_true)]
        exact ih
      · rw [List.find?_cons_of_pos _ (by rw [hqa]), List.find?_cons_of_pos _ (by rw [hqa])]
    · simp only [List.map_cons, hpa, if_true]
      rw [List.find?_cons_of_neg _ (by
          simp only [beq_iff_eq]
          exact fun h => hqp h.symm),
        List.find?_cons_of_neg _ (by
          intro h
          have hep : e.1 = p := (beq_iff_eq).mp hpa
          have heq : e.1 = q := (beq_iff_eq).mp h
          exact hqp (heq ▸ hep))]
      exact ih

theorem lookupAsset_setAsset_self (assets : List (ResPath × AssetDesc)) (p : ResPath)
    (d : AssetDesc) : lookupAsset (setAsset assets p d) p = some d := by
  by_cases hany : (assets.any fun e => e.1 == p) = true
  · simp only [setAsset, if_pos hany, lookupAsset, find?_map_set, hany, if_true]
    rfl
  · simp only [setAsset, if_neg hany, lookupAsset, List.find?_append]
    have hnone : assets.find? (fun e => e.1 == p) = none := by
      rw [List.find?_eq_none]
      intro x hx hbx
      exact hany (List.any_eq_true.mpr ⟨x, hx, hbx⟩)
    rw [hnone]
    simp only [Option.none_or]
    rw [List.find?_cons_of_pos _ (by simp)]
    rfl

theorem lookupAsset_setAsset_ne (assets : List (ResPath × AssetDesc)) (p q : ResPath)
    (d : AssetDesc) (hqp : q ≠ p) :
    lookupAsset (setAsset assets p d) q = lookupAsset assets q := by
  by_cases hany : (assets.any fun e => e.1 == p) = true
  · simp only [setAsset, if_pos hany, lookupAsset]
    rw [find?_map_set_ne assets p q d hqp]
  · simp only [setAsset, if_neg hany, lookupAsset, List.find?_append]
    have hsingle : ([(p, d)].find? fun e => e.1 == q) = none := by
      rw [List.find?_eq_none]
      intro x hx hbx
      rcases List.mem_singleton.mp hx with rfl
      exact hqp ((beq_iff_eq).mp hbx).symm
    rw [hsingle, Option.or_none]

theorem mem_enqueueRequest_self (reqs : List ResPath) (p : ResPath) :
    p ∈ enqueueRequest reqs p := by
  by_cases h : (reqs.contains p) = true
  · simp only [enqueueRequest, if_pos h]
    exact List.elem_iff.mp h
  · simp only [enqueueRequest, if_neg h]
    exact List.mem_append.mpr (Or.inr (List.mem_singleton.mpr rfl))

theorem subset_enqueueRequest (reqs : List ResPath) (p : ResPath) :
    reqs ⊆ enqueueRequest reqs p := by
  by_cases h : (reqs.contains p) = true
  · simp only [enqueueRequest, if_pos h]
    exact fun x hx => hx
  · simp only [enqueueRequest, if_neg h]
    exact fun x hx => List.mem_append.mpr (Or.inl hx)

theorem enqueueRequest_nodup (reqs : List ResPath) (p : ResPath) (h : reqs.Nodup) :
    (enqueueRequest reqs p).Nodup := by
  by_cases hc : (reqs.contains p) = true
  · simpa only [enqueueRequest, if_pos hc] using h
  · simp only [enqueueRequest, if_neg hc]
    refine h.append (List.nodup_singleton p) ?_
    intro a ha ha2
    rcases List.mem_singleton.mp ha2 with rfl
    exact hc (List.elem_iff.mpr ha)

theorem scanOne_lookup_ne (pipes : List AssetPipelineDesc)
    (acc : List (ResPath × AssetDesc) × List ResPath) (f : ResPath × FileTime)
    (q : ResPath) (h : q ≠ f.1) :
    lookupAsset (scanOne pipes acc f).1 q = lookupAsset acc.1 q := by
  by_cases he : ((GetApplicableTransformers pipes f.1).isEmpty) = true
  · simp only [scanOne, he, if_true]
  · rcases hl : lookupAsset acc.1 f.1 with _ | d
    · simp only [scanOne, he, Bool.false_eq_true, if_false, hl]
      split
      · exact lookupAsset_setAsset_ne _ _ _ _ h
      · exact lookupAsset_setAsset_ne _ _ _ _ h
    · simp only [scanOne, he, Bool.false_eq_true, if_false, hl]
      split
      · rfl
      · rfl

theorem scanOne_reqs_mono (pipes : List AssetPipelineDesc)
    (acc : List (ResPath × AssetDesc) × List ResPath) (f : ResPath × FileTime) :
    acc.2 ⊆ (scanOne pipes acc f).2 := by
  by_cases he : ((GetApplicableTransformers pipes f.1).isEmpty) = true
  · simp only [scanOne, he, if_true]
    exact fun x hx => hx
  · rcases hl : lookupAsset acc.1 f.1 with _ | d
    · simp only [scanOne, he, Bool.false_eq_true, if_false, hl]
      split
      · exact fun x hx => hx
      · exact subset_enqueueRequest _ _
    · simp only [scanOne, he, Bool.false_eq_true, if_false, hl]
      split
      · exact fun x hx => hx
      · exact subset_enqueueRequest _ _

theorem scanOne_reqs_nodup (pipes : List AssetPipelineDesc)
    (acc : List (ResPath × AssetDesc) × List ResPath) (f : ResPath × FileTime)
    (h : acc.2.Nodup) : (scanOne pipes acc f).2.Nodup := by
  by_cases he : ((GetApplicableTransformers pipes f.1).isEmpty) = true
  · simpa only [scanOne, he, if_true] using h
  · rcases hl : lookupAsset acc.1 f.1 with _ | d
    · simp only [scanOne, he, Bool.false_eq_true, if_false, hl]
      split
      · exact h
      · exact enqueueRequest_nodup _ _ h
    · simp only [scanOne, he, Bool.false_eq_true, if_false, hl]
      split
      · exact h
      · exact enqueueRequest_nodup _ _ h

theorem foldl_scanOne_lookup_ne (pipes : List AssetPipelineDesc) (q : ResPath) :
    ∀ (files : List (ResPath × FileTime)) acc, (∀ f ∈ files, q ≠ f.1) →
      lookupAsset (files.foldl (scanOne pipes) acc).1 q = lookupAsset acc.1 q := by
  intro files
  induction files with
  | nil => intro acc _; rfl
  | cons g gs ih =>
    intro acc hq
    rw [List.foldl_cons]
    rw [ih _ fun f hf => hq f (List.mem_cons.mpr (Or.inr hf))]
    exact scanOne_lookup_ne pipes acc g q (hq g (List.mem_cons.mpr (Or.inl rfl)))

theorem foldl_scanOne_reqs_mono (pipes : List AssetPipelineDesc) :
    ∀ (files : List (ResPath × FileTime)) acc,
      acc.2 ⊆ (files.foldl (scanOne pipes) acc).2 := by
  intro files
  induction files with
  | nil => intro acc x hx; exact hx
  | cons g gs ih =>
    intro acc x hx
    rw [List.foldl_cons]
    exact ih _ (scanOne_reqs_mono pipes acc g hx)

theorem foldl_scanOne_reqs_nodup (pipes : List AssetPipelineDesc) :
    ∀ (files : List (ResPath × FileTime)) acc, acc.2.Nodup →
      (files.foldl (scanOne pipes) acc).2.Nodup := by
  intro files
  induction files with
  | nil => intro acc h; exact h
  | cons g gs ih =>
    intro acc h
    rw [List.foldl_cons]
    exact ih _ (scanOne_reqs_nodup pipes acc g h)

theorem scanAll_invariant (pipes : List AssetPipelineDesc) :
    ∀ (files : List (ResPath × FileTime)) acc, (files.map Prod.fst).Nodup →
      ∀ f ∈ files,
        GetApplicableTransformers pipes f.1 = []
        ∨ f.1 ∈ (files.foldl (scanOne pipes) acc).2
        ∨ ∃ d, lookupAsset (files.foldl (scanOne pipes) acc).1 f.1 = some d
            ∧ IsAssetUpToDate pipes f.2 d = true := by
  intro files
  induction files with
  | nil => intro acc _ f hf; cases hf
  | cons g gs ih =>
    intro acc hnd f hf
    rw [List.map_cons] at hnd
    have hnd2 := List.nodup_cons.mp hnd
    rcases List.mem_cons.mp hf with rfl | hf2
    · by_cases happ : GetApplicableTransformers pipes f.1 = []
      · exact Or.inl happ
      · right
        have hkeys : ∀ f2 ∈ gs, f.1 ≠ f2.1 := by
          intro f2 hmem heq
          exact hnd2.1 (heq ▸ List.mem_map_of_mem Prod.fst hmem)
        have hempty : ¬ ((GetApplicableTransformers pipes f.1).isEmpty) = true := by
          rw [List.isEmpty_iff]
          exact happ
        rw [List.foldl_cons]
        rcases hl : lookupAsset acc.1 f.1 with _ | d
        · -- record created by this scan step, then kept or enqueued
          rcases hutd : IsAssetUpToDate pipes f.2 (freshAssetDesc f.1) with _ | _
          · -- fresh record not up to date: enqueued
            have hne : ¬ IsAssetUpToDate pipes f.2 (freshAssetDesc f.1) = true := by
              rw [hutd]
              exact Bool.false_ne_true
            have hreq : f.1 ∈ (scanOne pipes acc f).2 := by
              simp only [scanOne, hempty, Bool.false_eq_true, if_false, hl, if_neg hne]
              exact mem_enqueueRequest_self acc.2 f.1
            exact Or.inl (foldl_scanOne_reqs_mono pipes gs _ hreq)
          · -- fresh record already up to date: record survives the scan
            have hstep : (scanOne pipes acc f).1 = setAsset acc.1 f.1 (freshAssetDesc f.1) := by
              simp only [scanOne, hempty, Bool.false_eq_true, if_false, hl, if_pos hutd]
            refine Or.inr ⟨freshAssetDesc f.1, ?_, hutd⟩
            rw [foldl_scanOne_lookup_ne pipes f.1 gs _ hkeys, hstep]
            exact lookupAsset_setAsset_self acc.1 f.1 (freshAssetDesc f.1)
        · rcases hutd : IsAssetUpToDate pipes f.2 d with _ | _
          · -- stale: enqueued
            have hne : ¬ IsAssetUpToDate pipes f.2 d = true := by
              rw [hutd]
              exact Bool.false_ne_true
            have hreq : f.1 ∈ (scanOne pipes acc f).2 := by
              simp only [scanOne, hempty, Bool.false_eq_true, if_false, hl, if_neg hne]
              exact mem_enqueueRequest_self acc.2 f.1
            exact Or.inl (foldl_scanOne_reqs_mono pipes gs _ hreq)
          · -- already up to date: record survives the rest of the scan
            refine Or.inr ⟨d, ?_, hutd⟩
            rw [foldl_scanOne_lookup_ne pipes f.1 gs _ hkeys]
            have hstep : (scanOne pipes acc f).1 = acc.1 := by
              simp only [scanOne, hempty, Bool.false_eq_true, if_false, hl, if_pos hutd]
            rw [hstep]
            exact hl
    · rw [List.foldl_cons]
      exact ih (scanOne pipes acc g) hnd2.2 f hf2

theorem processAll_lookup_not_mem (pipes : List AssetPipelineDesc)
    (files : List (ResPath × FileTime)) :
    ∀ (reqs : List ResPath) assets q, q ∉ reqs →
      lookupAsset (processAll pipes files assets reqs) q = lookupAsset assets q := by
  intro reqs
  induction reqs with
  | nil => intro assets q _; rfl
  | cons r rs ih =>
    intro assets q hq
    have hq1 : q ≠ r := fun h => hq (List.mem_cons.mpr (Or.inl h))
    have hq2 : q ∉ rs := fun h => hq (List.mem_cons.mpr (Or.inr h))
    simp only [processAll, List.foldl_cons]
    rw [show (rs.foldl (fun acc p => setAsset acc p (processedAssetDesc pipes files p))
        (setAsset assets r (processedAssetDesc pipes files r)))
        = processAll pipes files (setAsset assets r (processedAssetDesc pipes files r)) rs
      from rfl]
    rw [ih _ q hq2]
    exact lookupAsset_setAsset_ne assets r q _ hq1

theorem processAll_lookup_mem (pipes : List AssetPipelineDesc)
    (files : List (ResPath × FileTime)) :
    ∀ (reqs : List ResPath) assets q, reqs.Nodup → q ∈ reqs →
      lookupAsset (processAll pipes files assets reqs) q
        = some (processedAssetDesc pipes files q) := by
  intro reqs
  induction reqs with
  | nil => intro assets q _ hq; cases hq
  | cons r rs ih =>
    intro assets q hnd hq
    have hnd2 := List.nodup_cons.mp hnd
    simp only [processAll, List.foldl_cons]
    rw [show (rs.foldl (fun acc p => setAsset acc p (processedAssetDesc pipes files p))
        (setAsset assets r (processedAssetDesc pipes files r)))
        = processAll pipes files (setAsset assets r (processedAssetDesc pipes files r)) rs
      from rfl]
    rcases List.mem_cons.mp hq with rfl | hq2
    · rw [processAll_lookup_not_mem pipes files rs _ q hnd2.1]
      exact lookupAsset_setAsset_self assets q _
    · exact ih _ q hnd2.2 hq2

theorem find?_eq_self_of_nodup_keys (files : List (ResPath × FileTime))
    (f : ResPath × FileTime) (hnd : (files.map Prod.fst).Nodup) (hf : f ∈ files) :
    files.find? (fun e => e.1 == f.1) = some f := by
  induction files with
  | nil => cases hf
  | cons g gs ih =>
    rw [List.map_cons] at hnd
    have hnd2 := List.nodup_cons.mp hnd
    rcases List.mem_cons.mp hf with rfl | hf2
    · rw [List.find?_cons_of_pos _ (by simp)]
    · rw [List.find?_cons_of_neg _ (by
        intro h
        have heq : g.1 = f.1 := by simpa using h
        exact hnd2.1 (heq ▸ List.mem_map_of_mem Prod.fst hf2))]
      exact ih hnd2.2 hf2

theorem mtimeOf_eq (files : List (ResPath × FileTime)) (f : ResPath × FileTime)
    (hnd : (files.map Prod.fst).Nodup) (hf : f ∈ files) : mtimeOf files f.1 = f.2 := by
  simp only [mtimeOf, find?_eq_self_of_nodup_keys files f hnd hf, Option.map_some]
  rfl

theorem processed_utd (pipes : List AssetPipelineDesc) (files : List (ResPath × FileTime))
    (f : ResPath × FileTime) (hnd : (files.map Prod.fst).Nodup) (hf : f ∈ files) :
    IsAssetUpToDate pipes f.2 (processedAssetDesc pipes files f.1) = true := by
  simp only [IsAssetUpToDate, processedAssetDesc, mtimeOf_eq files f hnd hf,
    sameStringSet_refl, Bool.not_false, beq_self_eq_true, Bool.and_true, Bool.true_and]

theorem scanOne_clean (pipes : List AssetPipelineDesc)
    (acc : List (ResPath × AssetDesc) × List ResPath) (f : ResPath × FileTime)
    (h : GetApplicableTransformers pipes f.1 = []
      ∨ ∃ d, lookupAsset acc.1 f.1 = some d ∧ IsAssetUpToDate pipes f.2 d = true) :
    scanOne pipes acc f = acc := by
  rcases h with happ | ⟨d, hl, hutd⟩
  · simp [scanOne, happ]
  · by_cases he : ((GetApplicableTransformers pipes f.1).isEmpty) = true
    · simp [scanOne, he]
    · simp [scanOne, he, hl, hutd]

theorem scanAll_clean (pipes : List AssetPipelineDesc) :
    ∀ (files : List (ResPath × FileTime)) assets reqs,
      (∀ f ∈ files, GetApplicableTransformers pipes f.1 = []
        ∨ ∃ d, lookupAsset assets f.1 = some d ∧ IsAssetUpToDate pipes f.2 d = true) →
      files.foldl (scanOne pipes) (assets, reqs) = (assets, reqs) := by
  intro files
  induction files with
  | nil => intro assets reqs _; rfl
  | cons g gs ih =>
    intro assets reqs h
    rw [List.foldl_cons, scanOne_clean pipes (assets, reqs) g
      (h g (List.mem_cons.mpr (Or.inl rfl)))]
    exact ih assets reqs fun f hf => h f (List.mem_cons.mpr (Or.inr hf))

theorem updatePipelinesStage_files (env : AManEnv) (st : AManState) :
    (UpdatePipelinesStage env st).assetPipelineFiles = env.pipelineFiles := by
  by_cases hc : (st.assetPipelineFiles == env.pipelineFiles) = true
  · simp only [UpdatePipelinesStage, if_pos hc]
    exact (beq_iff_eq).mp hc
  · simp only [UpdatePipelinesStage, if_neg hc]

theorem updatePipelinesStage_self (env : AManEnv) (st : AManState)
    (h : st.assetPipelineFiles = env.pipelineFiles) :
    UpdatePipelinesStage env st = st := by
  simp only [UpdatePipelinesStage, if_pos ((beq_iff_eq).mpr h)]

theorem update_stable (env : AManEnv) (st : AManState)
    (hfiles : st.assetPipelineFiles = env.pipelineFiles)
    (hclean : ∀ f ∈ env.assetFiles,
        GetApplicableTransformers st.assetPipelines f.1 = []
        ∨ ∃ d, lookupAsset st.assets f.1 = some d
            ∧ IsAssetUpToDate st.assetPipelines f.2 d = true) :
    Update env st = (st, 0) := by
  simp only [Update]
  rw [updatePipelinesStage_self env st hfiles]
  simp only [scanAll]
  rw [scanAll_clean st.assetPipelines env.assetFiles st.assets [] hclean]
  rfl

/-- C5: `Update` is idempotent at a fixed point: with no filesystem or pipeline
changes between the calls (the same environment, whose asset file list has no
duplicate paths), the second `Update` leaves the whole engine state — including
the asset record map — identical and enqueues zero processing requests. -/
theorem update_idempotent (env : AManEnv) (st : AManState)
    (hkeys : (env.assetFiles.map Prod.fst).Nodup) :
    Update env (Update env st).1 = ((Update env st).1, 0) := by
  apply update_stable
  · exact updatePipelinesStage_files env st
  · intro f hf
    simp only [Update]
    by_cases happ :
        GetApplicableTransformers (UpdatePipelinesStage env st).assetPipelines f.1 = []
    · exact Or.inl happ
    · right
      by_cases hreq : f.1 ∈ (scanAll (UpdatePipelinesStage env st).assetPipelines
          env.assetFiles (UpdatePipelinesStage env st).assets).2
      · refine ⟨processedAssetDesc (UpdatePipelinesStage env st).assetPipelines
          env.assetFiles f.1, ?_, ?_⟩
        · exact processAll_lookup_mem _ env.assetFiles _ _ f.1
            (foldl_scanOne_reqs_nodup _ env.assetFiles _ List.nodup_nil) hreq
        · exact processed_utd _ env.assetFiles f hkeys hf
      · rcases scanAll_invariant (UpdatePipelinesStage env st).assetPipelines env.assetFiles
            ((UpdatePipelinesStage env st).assets, ([] : List ResPath)) hkeys f hf
          with happ2 | hreq2 | ⟨d, hl, hutd⟩
        · exact absurd happ2 happ
        · exact absurd hreq2 hreq
        · refine ⟨d, ?_, hutd⟩
          rw [processAll_lookup_not_mem _ env.assetFiles _ _ f.1 hreq]
          exact hl

/-- Witness for C5 at a concrete environment and empty initial state. -/
theorem update_idempotent_witness :
    Update envEx (Update envEx ⟨[], [], []⟩).1 = ((Update envEx ⟨[], [], []⟩).1, 0) :=
  update_idempotent envEx ⟨[], [], []⟩ (by decide)

end Rbfx
